import Mathlib

/-!
Verification of the GFlowNet molecule-building environment context
(`src/gt4sd/frameworks/gflownet/envs/mol_building_env.py`,
class `MolBuildingEnvContext`).

The Python class is a stateless codec between three representations:
abstract graph-building actions (`GraphAction`), dense action-index
triples `(type, row, col)` consumed by a neural head, and a tensor
encoding (`torch_geometric.data.Data`) of an attributed molecular graph.
We embed the data model and the four codec methods as executable Lean
functions, modelling Python exceptions with `Except PyError` and the
Python `None` return with `Option`.
-/

namespace MolBuild

/-- Chirality tags used in `atom_attr_values["chi"]`
(`rdkit.Chem.rdchem.ChiralType`; only the three listed members occur). -/
inductive ChiralType where
  | CHI_UNSPECIFIED
  | CHI_TETRAHEDRAL_CW
  | CHI_TETRAHEDRAL_CCW
deriving DecidableEq, Repr

/-- Bond types used in `bond_attr_values["type"]`
(`rdkit.Chem.rdchem.BondType`; only the four listed members occur). -/
inductive BondType where
  | SINGLE
  | DOUBLE
  | TRIPLE
  | AROMATIC
deriving DecidableEq, Repr

/-- An attribute value: element symbol string, chirality tag, Python int
(formal charge / explicit-H count), boolean flag, or bond type. -/
inductive AttrVal where
  | str (s : String)
  | chi (c : ChiralType)
  | int (z : Int)
  | bool (b : Bool)
  | bond (b : BondType)
deriving DecidableEq, Repr, Inhabited

/-- Decidable equality of `Except` results, for evaluating the embedded
functions on concrete inputs. -/
instance {ε α : Type} [DecidableEq ε] [DecidableEq α] :
    DecidableEq (Except ε α) := fun x y =>
  match x, y with
  | .ok a, .ok b =>
      if h : a = b then .isTrue (by simp [h]) else .isFalse (by simp [h])
  | .ok _, .error _ => .isFalse (by simp)
  | .error _, .ok _ => .isFalse (by simp)
  | .error e, .error f =>
      if h : e = f then .isTrue (by simp [h]) else .isFalse (by simp [h])

/-- Python exceptions that the embedded code can raise. -/
inductive PyError where
  | indexError
  | valueError
  | runtimeError
  | keyError
  | typeError
deriving DecidableEq, Repr

/-- Python list indexing `l[i]` with an int index: negative indices count
from the end; out of range raises `IndexError`. -/
def pyGetI {α : Type} (l : List α) (i : Int) : Except PyError α :=
  let j : Int := if i < 0 then i + l.length else i
  if h : 0 ≤ j ∧ j < l.length then
    .ok (l.get ⟨j.toNat, by omega⟩)
  else
    .error .indexError

/-- Python `list.index(a)`: first index of `a`,
`ValueError` when `a` is absent. -/
def pyIndex {α : Type} [DecidableEq α] (l : List α) (a : α) :
    Except PyError Nat :=
  if a ∈ l then .ok (l.indexOf a) else .error .valueError

/-- `torch.argmax` over a 1-D tensor of naturals: the index of the first
maximal entry; raises on an empty tensor. -/
def argmax (l : List Nat) : Except PyError Nat :=
  if l.isEmpty then .error .runtimeError
  else .ok (l.indexOf (l.foldr max 0))

/-- Reading an attribute from a Python object where it may be unset
(`None`): accessing an unset field where a value is required fails
(models `int(None)` / passing `None` to a library call). -/
def getSome {α : Type} (o : Option α) : Except PyError α :=
  match o with
  | some a => .ok a
  | none => .error .typeError

/-!  ## The vocabulary tables built in `MolBuildingEnvContext.__init__`
(lines 26-119).  The constructor takes the atom vocabulary
`atoms=["H","C","N","O","F"]`; every table below is parametrised by it. -/

/-- `self.atom_attr_values` (lines 28-38): per-attribute ordered value
lists; index 0 has to coincide with the default value. -/
def atomAttrValues (atoms : List String) : String → List AttrVal
  | "v" => atoms.map .str
  | "chi" => [.chi .CHI_UNSPECIFIED, .chi .CHI_TETRAHEDRAL_CW, .chi .CHI_TETRAHEDRAL_CCW]
  | "charge" => [.int 0, .int 1, .int (-1)]
  | "expl_H" => [.int 0, .int 1, .int 2, .int 3]
  | "no_impl" => [.bool false, .bool true]
  | _ => []

/-- `self.atom_attrs = sorted(self.atom_attr_values.keys())` (line 44). -/
def atomAttrs : List String := ["charge", "chi", "expl_H", "no_impl", "v"]

/-- `self.atom_attr_defaults` (lines 39-41): first entry of each list. -/
def atomAttrDefault (atoms : List String) (k : String) : AttrVal :=
  (atomAttrValues atoms k).headI

/-- `self.atom_attr_size` (line 43): sum of the value-list lengths. -/
def atomAttrSize (atoms : List String) : Nat :=
  (atomAttrs.map fun k => (atomAttrValues atoms k).length).sum

/-- `self.atom_attr_slice` (lines 46-48): `[0] + cumsum(lengths)`; entry
`i` is the beginning position of attribute `i` in the input vector. -/
def atomAttrSlice (atoms : List String) : List Nat :=
  List.scanl (fun acc k => acc + (atomAttrValues atoms k).length) 0 atomAttrs

/-- `self.atom_attr_logit_slice` (lines 50-61): dict from attribute to its
beginning position in the logit vector, built by zipping `atom_attrs` with
`[0] + cumsum(lengths - 1)`. -/
def atomAttrLogitSlice (atoms : List String) (k : String) : Nat :=
  (((atomAttrs.zip
      (List.scanl (fun acc a => acc + ((atomAttrValues atoms a).length - 1))
        0 atomAttrs))).lookup k).getD 0

/-- `self.atom_attr_logit_map` (lines 63-69): the attribute and value each
logit dimension maps back to; `"v"` is skipped, and index 0 of each value
list is skipped because it is the default value. -/
def atomAttrLogitMap (atoms : List String) : List (String × AttrVal) :=
  atomAttrs.flatMap fun k =>
    if k = "v" then [] else ((atomAttrValues atoms k).tail.map fun v => (k, v))

/-- `self.bond_attr_values` (lines 71-78). -/
def bondAttrValues : String → List AttrVal
  | "type" => [.bond .SINGLE, .bond .DOUBLE, .bond .TRIPLE, .bond .AROMATIC]
  | _ => []

/-- `self.bond_attrs = sorted(self.bond_attr_values.keys())` (line 83). -/
def bondAttrs : List String := ["type"]

/-- `self.bond_attr_defaults` (lines 79-81). -/
def bondAttrDefault (k : String) : AttrVal :=
  (bondAttrValues k).headI

/-- `self.bond_attr_size` (line 82). -/
def bondAttrSize : Nat :=
  (bondAttrs.map fun k => (bondAttrValues k).length).sum

/-- `self.bond_attr_slice` (lines 84-86). -/
def bondAttrSlice : List Nat :=
  List.scanl (fun acc k => acc + (bondAttrValues k).length) 0 bondAttrs

/-- `self.bond_attr_logit_slice` (lines 87-98). -/
def bondAttrLogitSlice (k : String) : Nat :=
  (((bondAttrs.zip
      (List.scanl (fun acc a => acc + ((bondAttrValues a).length - 1))
        0 bondAttrs))).lookup k).getD 0

/-- `self.bond_attr_logit_map` (lines 99-101). -/
def bondAttrLogitMap : List (String × AttrVal) :=
  bondAttrs.flatMap fun k => (bondAttrValues k).tail.map fun v => (k, v)

/-- `self.num_node_dim = self.atom_attr_size + 1` (line 106): one extra
position for the empty-graph indicator bit. -/
def numNodeDim (atoms : List String) : Nat := atomAttrSize atoms + 1

/-- `self.num_edge_dim = self.bond_attr_size` (line 108). -/
def numEdgeDim : Nat := bondAttrSize

/-- `GraphActionType` (imported from `graph_building_env`, not under
`src/`). Modelled from the spec: "Action: one of a fixed closed set of
variants — Stop, AddNode, SetNodeAttr, AddEdge, SetEdgeAttr". -/
inductive GraphActionType where
  | Stop
  | AddNode
  | SetNodeAttr
  | AddEdge
  | SetEdgeAttr
deriving DecidableEq, Repr

/-- `self.action_type_order` (lines 112-118): order in which models have
to output logits. -/
def actionTypeOrder : List GraphActionType :=
  [.Stop, .AddNode, .SetNodeAttr, .AddEdge, .SetEdgeAttr]

/-- `GraphAction` (imported from `graph_building_env`, not under `src/`).
Modelled from the spec: each variant carries "a subset of {source node,
target node, attribute name, attribute value}"; unset fields are `None`.
Node indices are Python ints. -/
structure GraphAction where
  action : GraphActionType
  source : Option Int := none
  target : Option Int := none
  attr : Option String := none
  value : Option AttrVal := none
deriving DecidableEq, Repr

/-- `Graph` (a `networkx`-style attributed undirected graph, from
`graph_building_env`, not under `src/`). Modelled from the spec: nodes
carry a variable attribute set, edges a bond-type attribute. Node keys
are the positions `0 .. nodes.length - 1` (the environment and
`mol_to_graph` always insert keys `0..n-1` in order); each edge is stored
once, in its stored orientation, with its attribute set. -/
structure Graph where
  nodes : List (List (String × AttrVal))
  edges : List (Nat × Nat × List (String × AttrVal))
deriving DecidableEq, Repr

/-- A `torch_geometric.data.Data` instance as produced by
`graph_to_Data`: node features, duplicated directed edge list, duplicated
edge features, and the complement-graph non-edge list. Index tensors are
`long` tensors, i.e. lists of int pairs; feature tensors hold 0/1. -/
structure Data where
  x : List (List Nat)
  edge_index : List (Int × Int)
  edge_attr : List (List Nat)
  non_edge_index : List (Int × Int)
deriving DecidableEq, Repr

/-- Adjacency in a `Graph` (either orientation). -/
def Graph.adj (g : Graph) (u v : Nat) : Bool :=
  g.edges.any fun e => (e.1 = u ∧ e.2.1 = v) ∨ (e.1 = v ∧ e.2.1 = u)

/-- The complement-graph edge list `[i for i in nx.complement(g).edges]`
(lines 219-223): with node keys `0..n-1` inserted in order, `networkx`
yields each non-adjacent pair once, as `(u, v)` with `u < v`, ordered
lexicographically. -/
def nonEdges (g : Graph) : List (Nat × Nat) :=
  (List.range g.nodes.length).flatMap fun u =>
    (((List.range g.nodes.length).filter fun v =>
        u < v ∧ ¬ g.adj u v)).map fun v => (u, v)

/-- Set position `i` of a row to 1 (`x[r, i] = 1`). -/
def setOne (l : List Nat) (i : Nat) : List Nat := l.set i 1

/-- One node's feature row (lines 200-204): for each attribute `k` with
start `sl` in `zip(atom_attrs, atom_attr_slice)`, set position
`sl + idx` where `idx` is the value's index in the attribute's list, or 0
(the default's index) when the node does not carry the attribute.
`.index` is modelled by `List.indexOf`; the two agree on graphs whose
stored values are in the vocabulary (`Graph.WF` below). -/
def nodeRow (atoms : List String) (ad : List (String × AttrVal)) : List Nat :=
  (atomAttrs.zip (atomAttrSlice atoms)).foldl
    (fun row ksl =>
      let idx := match ad.lookup ksl.1 with
        | some v => (atomAttrValues atoms ksl.1).indexOf v
        | none => 0
      setOne row (ksl.2 + idx))
    (List.replicate (numNodeDim atoms) 0)

/-- One (directed copy of an) edge's feature row (lines 207-211). -/
def bondRow (ad : List (String × AttrVal)) : List Nat :=
  (bondAttrs.zip bondAttrSlice).foldl
    (fun row ksl =>
      let idx := match ad.lookup ksl.1 with
        | some v => (bondAttrValues ksl.1).indexOf v
        | none => 0
      setOne row (ksl.2 + idx))
    (List.replicate numEdgeDim 0)

/-- `graph_to_Data` (lines 196-225): node features over `max(1, n)` rows
with `x[0, -1] = (n == 0)`, each edge duplicated as `(i,j), (j,i)` in
`edge_index` with its feature row duplicated alongside, and the
complement-graph non-edge list. -/
def graph_to_Data (atoms : List String) (g : Graph) : Data :=
  let x : List (List Nat) :=
    if g.nodes.length = 0 then
      [setOne (List.replicate (numNodeDim atoms) 0) (numNodeDim atoms - 1)]
    else
      g.nodes.map (nodeRow atoms)
  { x := x
    edge_index := g.edges.flatMap fun e => [((e.1 : Int), (e.2.1 : Int)), ((e.2.1 : Int), (e.1 : Int))]
    edge_attr := g.edges.flatMap fun e => [bondRow e.2.2, bondRow e.2.2]
    non_edge_index := (nonEdges g).map fun p => ((p.1 : Int), (p.2 : Int)) }

/-- `aidx_to_GraphAction` (lines 121-144): decode an action-index triple.
`t = self.action_type_order[act_type]` raises `IndexError` when the
ordinal is outside the list; the `if/elif` chain covers all five
variants, so the implicit-`None` fall-through (`Option` here) is
unreachable for in-range ordinals. -/
def aidx_to_GraphAction (atoms : List String) (g : Data)
    (aidx : Int × Int × Int) : Except PyError (Option GraphAction) := do
  let (actType, actRow, actCol) := aidx
  let t ← pyGetI actionTypeOrder actType
  match t with
  | .Stop => return some { action := .Stop }
  | .AddNode => do
      let v ← pyGetI (atomAttrValues atoms "v") actCol
      return some { action := .AddNode, source := actRow, value := v }
  | .SetNodeAttr => do
      let av ← pyGetI (atomAttrLogitMap atoms) actCol
      return some { action := .SetNodeAttr, source := actRow,
                    attr := av.1, value := av.2 }
  | .AddEdge => do
      let ab ← pyGetI g.non_edge_index actRow
      return some { action := .AddEdge, source := ab.1, target := ab.2 }
  | .SetEdgeAttr => do
      let ab ← pyGetI g.edge_index (actRow * 2)
      let av ← pyGetI bondAttrLogitMap actCol
      return some { action := .SetEdgeAttr, source := ab.1, target := ab.2,
                    attr := av.1, value := av.2 }

/-- `GraphAction_to_aidx` (lines 146-194): encode a `GraphAction` as an
index triple.  For `SetNodeAttr`/`SetEdgeAttr` the column subtracts 1
from the value's list index because the default is index 0.  For
`AddEdge` the row is the argmax of a 0/1 match mask over the non-edge
list, matching the pair in either orientation; for `SetEdgeAttr` it is
the argmax of the match mask over the duplicated `edge_index`,
floor-divided by two. -/
def GraphAction_to_aidx (atoms : List String) (g : Data)
    (action : GraphAction) : Except PyError (Int × Int × Int) := do
  let (row, col) ← (do
    match action.action with
    | .Stop => pure ((0 : Int), (0 : Int))
    | .AddNode => do
        let src ← getSome action.source
        let v ← getSome action.value
        let c ← pyIndex (atomAttrValues atoms "v") v
        pure (src, (c : Int))
    | .SetNodeAttr => do
        let src ← getSome action.source
        let k ← getSome action.attr
        let v ← getSome action.value
        let i ← pyIndex (atomAttrValues atoms k) v
        pure (src, (i : Int) - 1 + (atomAttrLogitSlice atoms k : Int))
    | .AddEdge => do
        let s ← getSome action.source
        let t ← getSome action.target
        let mask := g.non_edge_index.map fun p =>
          (if p = (s, t) then 1 else 0) + (if p = (t, s) then 1 else 0)
        let r ← argmax mask
        pure ((r : Int), (0 : Int))
    | .SetEdgeAttr => do
        let s ← getSome action.source
        let t ← getSome action.target
        let k ← getSome action.attr
        let v ← getSome action.value
        let mask := g.edge_index.map fun p => if p = (s, t) then 1 else 0
        let p ← argmax mask
        let i ← pyIndex (bondAttrValues k) v
        pure (((p : Int) / 2), (i : Int) - 1 + (bondAttrLogitSlice k : Int))
    : Except PyError (Int × Int))
  let tIdx ← pyIndex actionTypeOrder action.action
  return ((tIdx : Int), row, col)

/-!  ## Molecule conversion (`mol_to_graph`, `graph_to_mol`, `is_sane`)

The chemistry library (`rdkit`) molecule is modelled at the interface
level the code consumes (spec §6: "atoms/bonds with symbol, chirality,
charge, explicit-H, no-implicit-H, bond type accessors").  Atom indices
(`GetIdx`) are the positions `0 .. n-1` in `GetAtoms` order; the field
defaults are the `rdkit` atom-constructor defaults. -/

/-- An `rdkit` atom, restricted to the accessors the codec reads
(`GetSymbol`, `GetChiralTag`, `GetFormalCharge`, `GetNumExplicitHs`,
`GetNoImplicit`); the default field values are those of a freshly
constructed `Chem.Atom(symbol)`. -/
structure Atom where
  symbol : String
  chiralTag : ChiralType := .CHI_UNSPECIFIED
  formalCharge : Int := 0
  numExplicitHs : Int := 0
  noImplicit : Bool := false
deriving DecidableEq, Repr

/-- An `rdkit` bond (`GetBeginAtomIdx`, `GetEndAtomIdx`, `GetBondType`). -/
structure Bond where
  beginAtomIdx : Nat
  endAtomIdx : Nat
  bondType : BondType := .SINGLE
deriving DecidableEq, Repr

/-- An `rdkit` molecule at the interface level used by the codec. -/
structure Mol where
  atoms : List Atom
  bonds : List Bond
deriving DecidableEq, Repr

/-- A bond with its endpoints put in nondecreasing order (the
orientation `networkx` reports for edges when node keys are inserted in
ascending order). -/
def normBond (b : Bond) : Bond :=
  if b.beginAtomIdx ≤ b.endAtomIdx then b
  else { beginAtomIdx := b.endAtomIdx, endAtomIdx := b.beginAtomIdx,
         bondType := b.bondType }

/-- Chemical equivalence of interface-level molecules: identical atom
lists and the same bonds up to orientation and order.  Two molecules
equivalent in this sense denote the same chemical graph, so any
canonical string function of the chemical graph agrees on them. -/
def MolEquiv (m₁ m₂ : Mol) : Prop :=
  m₁.atoms = m₂.atoms ∧ (m₁.bonds.map normBond).Perm (m₂.bonds.map normBond)

/-- The attribute set `mol_to_graph` stores for one atom (lines
237-252): the symbol `v` plus exactly those of `chi`, `charge`,
`expl_H`, `no_impl` that differ from the attribute's default. -/
def atomNode (atoms : List String) (a : Atom) : List (String × AttrVal) :=
  ("v", AttrVal.str a.symbol) ::
    ([("chi", AttrVal.chi a.chiralTag), ("charge", AttrVal.int a.formalCharge),
      ("expl_H", AttrVal.int a.numExplicitHs),
      ("no_impl", AttrVal.bool a.noImplicit)].filter
      fun kv => kv.2 ≠ atomAttrDefault atoms kv.1)

/-- The stored edge `mol_to_graph` produces for one bond (lines
253-263): endpoints in the orientation the `networkx` edge view reports
(smaller node key first), carrying `type` only when it differs from
`SINGLE`. -/
def bondEdge (b : Bond) : Nat × Nat × List (String × AttrVal) :=
  (min b.beginAtomIdx b.endAtomIdx, max b.beginAtomIdx b.endAtomIdx,
    [("type", AttrVal.bond b.bondType)].filter fun kv =>
      kv.2 ≠ bondAttrDefault kv.1)

/-- `mol_to_graph` (lines 233-264): nodes keyed by `GetIdx` (positions),
one stored edge per bond.  The edge list is the `networkx` iteration
view: orientation `(min, max)` and edges grouped by their smaller
endpoint in ascending node order (insertion order within a group). -/
def mol_to_graph (atoms : List String) (m : Mol) : Graph :=
  { nodes := m.atoms.map (atomNode atoms)
    edges := (List.range m.atoms.length).flatMap fun u =>
      (m.bonds.map bondEdge).filter fun e => e.1 = u }

/-- Coerce an attribute value to an element symbol string
(`Chem.Atom(d["v"])` needs a string). -/
def asStr : AttrVal → Except PyError String
  | .str s => .ok s
  | _ => .error .typeError

/-- Coerce to a chirality tag (`SetChiralTag`). -/
def asChi : AttrVal → Except PyError ChiralType
  | .chi c => .ok c
  | _ => .error .typeError

/-- Coerce to a Python int (`SetFormalCharge` / `SetNumExplicitHs`). -/
def asInt : AttrVal → Except PyError Int
  | .int z => .ok z
  | _ => .error .typeError

/-- Coerce to a boolean (`SetNoImplicit`). -/
def asBool : AttrVal → Except PyError Bool
  | .bool b => .ok b
  | _ => .error .typeError

/-- Coerce to a bond type (`AddBond`'s third argument). -/
def asBond : AttrVal → Except PyError BondType
  | .bond b => .ok b
  | _ => .error .typeError

/-- The per-node body of the `graph_to_mol` atom loop (lines 269-280):
`Chem.Atom(d["v"])` — `KeyError` when `v` is missing — followed by the
four conditional setters, each defaulting to the constructor value. -/
def buildAtom (d : List (String × AttrVal)) : Except PyError Atom := do
  let sym ← match d.lookup "v" with
    | some v => asStr v
    | none => .error PyError.keyError
  let chi ← match d.lookup "chi" with
    | some v => asChi v
    | none => pure ChiralType.CHI_UNSPECIFIED
  let charge ← match d.lookup "charge" with
    | some v => asInt v
    | none => pure (0 : Int)
  let explH ← match d.lookup "expl_H" with
    | some v => asInt v
    | none => pure (0 : Int)
  let noImpl ← match d.lookup "no_impl" with
    | some v => asBool v
    | none => pure false
  pure { symbol := sym, chiralTag := chi, formalCharge := charge,
         numExplicitHs := explH, noImplicit := noImpl : Atom }

/-- The per-edge body of the `graph_to_mol` bond loop (lines 281-283):
`mp.AddBond(e[0], e[1], d.get("type", BondType.SINGLE))`, raising when an
endpoint is not an atom index of the molecule under construction. -/
def buildBond (n : Nat) (e : Nat × Nat × List (String × AttrVal)) :
    Except PyError Bond := do
  if e.1 < n ∧ e.2.1 < n then
    let bt ← asBond ((e.2.2.lookup "type").getD (AttrVal.bond .SINGLE))
    pure { beginAtomIdx := e.1, endAtomIdx := e.2.1, bondType := bt : Bond }
  else
    .error PyError.runtimeError

/-- The bond value `buildBond` produces on success from a stored edge:
the stored endpoints with `d.get("type", BondType.SINGLE)`. -/
def edgeBond (e : Nat × Nat × List (String × AttrVal)) : Bond :=
  { beginAtomIdx := e.1, endAtomIdx := e.2.1,
    bondType := match (e.2.2.lookup "type").getD (AttrVal.bond .SINGLE) with
      | .bond bt => bt
      | _ => .SINGLE }

/-- The construction part of `graph_to_mol` (lines 266-284, before
`Chem.SanitizeMol`): one atom per node and one bond per edge, built by
the loop bodies above. -/
def graph_to_mol_raw (g : Graph) : Except PyError Mol := do
  let atoms ← g.nodes.mapM buildAtom
  let bonds ← g.edges.mapM (buildBond g.nodes.length)
  pure { atoms := atoms, bonds := bonds }

/-- `graph_to_mol` (lines 266-286): construction followed by
`Chem.SanitizeMol`.  Sanitization is pure chemistry performed by the
external library; it is passed in as `sanitize`. -/
def graph_to_mol (sanitize : Mol → Except PyError Mol) (g : Graph) :
    Except PyError Mol :=
  (graph_to_mol_raw g).bind sanitize

/-- `is_sane` (lines 288-296): builds the molecule and asserts that the
canonical-string round trip `MolFromSmiles(MolToSmiles(mol))` is not
`None`, catching every exception and returning `False` instead; the
`mol is None` check never fires because `graph_to_mol` returns a
molecule whenever it does not raise.  `MolToSmiles` / `MolFromSmiles`
are external chemistry, passed in as `toSmiles` / `fromSmiles`. -/
def is_sane (sanitize : Mol → Except PyError Mol) (toSmiles : Mol → String)
    (fromSmiles : String → Option Mol) (g : Graph) : Bool :=
  match graph_to_mol sanitize g with
  | .error _ => false
  | .ok mol => if (fromSmiles (toSmiles mol)).isSome then true else false

/-!  ## Well-formedness and legality

`Graph.WF` captures the graphs the environment can build: node keys are
the positions `0..n-1`, every edge joins two distinct existing nodes,
each unordered pair occurs at most once, and every stored attribute value
is drawn from its vocabulary list (so Python's `list.index` never
raises and agrees with `List.indexOf`). -/

/-- Two stored edges cover the same unordered node pair. -/
def sameUnordered (e f : Nat × Nat × List (String × AttrVal)) : Prop :=
  (e.1 = f.1 ∧ e.2.1 = f.2.1) ∨ (e.1 = f.2.1 ∧ e.2.1 = f.1)

instance (e f : Nat × Nat × List (String × AttrVal)) :
    Decidable (sameUnordered e f) := by
  unfold sameUnordered
  infer_instance

/-- Well-formed graph: edges join distinct in-range nodes, unordered
pairs are distinct, and all stored attribute values are in-vocabulary. -/
structure Graph.WF (atoms : List String) (g : Graph) : Prop where
  edges_lt : ∀ e ∈ g.edges, e.1 < g.nodes.length ∧ e.2.1 < g.nodes.length
  edges_ne : ∀ e ∈ g.edges, e.1 ≠ e.2.1
  edges_nodup : g.edges.Pairwise fun e f => ¬ sameUnordered e f
  node_vals : ∀ d ∈ g.nodes, ∀ kv ∈ d,
    kv.1 ∈ atomAttrs ∧ kv.2 ∈ atomAttrValues atoms kv.1
  edge_vals : ∀ e ∈ g.edges, ∀ kv ∈ e.2.2,
    kv.1 ∈ bondAttrs ∧ kv.2 ∈ bondAttrValues kv.1

/-- The actions the environment offers on a graph `g`, endpoint pairs
given in the stored orientation.  `Stop` carries nothing; `AddNode`
attaches a vocabulary atom; `SetNodeAttr` sets a settable (non-symbol)
node attribute to a non-default vocabulary value; `AddEdge` joins a pair
from the non-edge candidate list; `SetEdgeAttr` sets the bond type of a
stored edge to a non-default vocabulary value. -/
inductive Legal (atoms : List String) (g : Graph) : GraphAction → Prop where
  | stop : Legal atoms g { action := .Stop }
  | addNode (s : Int) (v : String) (hv : v ∈ atoms) :
      Legal atoms g { action := .AddNode, source := some s,
                      value := some (.str v) }
  | setNodeAttr (s : Int) (k : String) (v : AttrVal) (hk : k ∈ atomAttrs)
      (hkv : k ≠ "v") (hv : v ∈ atomAttrValues atoms k)
      (hd : v ≠ atomAttrDefault atoms k) :
      Legal atoms g { action := .SetNodeAttr, source := some s,
                      attr := some k, value := some v }
  | addEdge (u v : Nat) (h : (u, v) ∈ nonEdges g) :
      Legal atoms g { action := .AddEdge, source := some (u : Int),
                      target := some (v : Int) }
  | setEdgeAttr (u v : Nat) (ad : List (String × AttrVal)) (w : AttrVal)
      (he : (u, v, ad) ∈ g.edges) (hv : w ∈ bondAttrValues "type")
      (hd : w ≠ bondAttrDefault "type") :
      Legal atoms g { action := .SetEdgeAttr, source := some (u : Int),
                      target := some (v : Int), attr := some "type",
                      value := some w }

/-!  ## Concrete fixtures used by counterexamples and witnesses -/

/-- The default vocabulary `atoms=["H", "C", "N", "O", "F"]`. -/
def defaultAtoms : List String := ["H", "C", "N", "O", "F"]

/-- The empty graph. -/
def gEmpty : Graph := { nodes := [], edges := [] }

/-- A single carbon atom, no bonds. -/
def gC1 : Graph := { nodes := [[("v", AttrVal.str "C")]], edges := [] }

/-- The spec scenario graph: two carbons joined by a single bond (the
bond type `SINGLE` is the default, so no `type` attribute is stored). -/
def gCCbond : Graph :=
  { nodes := [[("v", AttrVal.str "C")], [("v", AttrVal.str "C")]],
    edges := [(0, 1, [])] }

/-- Two carbons with no bond. -/
def gCCfree : Graph :=
  { nodes := [[("v", AttrVal.str "C")], [("v", AttrVal.str "C")]],
    edges := [] }

/-- Three carbons with a single 0-1 bond. -/
def gPath : Graph :=
  { nodes := [[("v", AttrVal.str "C")], [("v", AttrVal.str "C")],
              [("v", AttrVal.str "C")]],
    edges := [(0, 1, [])] }

/-- The AddEdge action between atoms 0 and 1, in that order. -/
def addEdge01 : GraphAction :=
  { action := .AddEdge, source := some 0, target := some 1 }

/-- The AddEdge action between atoms 1 and 0 (reversed orientation). -/
def addEdge10 : GraphAction :=
  { action := .AddEdge, source := some 1, target := some 0 }

/-- A concrete molecule: a carbocation bonded to an oxygen (bond listed
with its endpoints in descending order, to exercise reorientation). -/
def mExample : Mol :=
  { atoms := [{ symbol := "C" }, { symbol := "C", formalCharge := 1 },
              { symbol := "O", numExplicitHs := 1 }],
    bonds := [{ beginAtomIdx := 2, endAtomIdx := 1, bondType := .DOUBLE },
              { beginAtomIdx := 0, endAtomIdx := 1 }] }

/-!  ## Helper lemmas -/

theorem pyGetI_ofNat {α : Type} (l : List α) (n : Nat) (h : n < l.length) :
    pyGetI l (n : Int) = .ok (l.get ⟨n, h⟩) := by
  unfold pyGetI
  have h0 : ¬ ((n : Int) < 0) := by omega
  have hc : (0 : Int) ≤ (n : Int) ∧ (n : Int) < l.length := by omega
  simp only [h0, if_false, hc, and_self, dif_pos]
  congr 1

theorem pyIndex_ok {α : Type} [DecidableEq α] {l : List α} {a : α}
    (h : a ∈ l) : pyIndex l a = .ok (l.indexOf a) := by
  simp [pyIndex, h]

theorem foldr_max_le {l : List Nat} {b : Nat} (h : ∀ x ∈ l, x ≤ b) :
    l.foldr max 0 ≤ b := by
  induction l with
  | nil => exact Nat.zero_le b
  | cons a t ih =>
      exact max_le (h a (List.mem_cons_self a t))
        (ih fun x hx => h x (List.mem_cons_of_mem a hx))

theorem mem_le_foldr_max {l : List Nat} {x : Nat} (h : x ∈ l) :
    x ≤ l.foldr max 0 := by
  induction l with
  | nil => cases h
  | cons a t ih =>
      rcases List.mem_cons.mp h with rfl | h
      · exact le_max_left _ _
      · exact le_trans (ih h) (le_max_right _ _)

theorem foldr_max_eq_one {l : List Nat} (h1 : (1 : Nat) ∈ l)
    (h : ∀ x ∈ l, x ≤ 1) : l.foldr max 0 = 1 :=
  le_antisymm (foldr_max_le h) (mem_le_foldr_max h1)

theorem argmax_all_zero {l : List Nat} (hne : l ≠ [])
    (h : ∀ x ∈ l, x = 0) : argmax l = .ok 0 := by
  unfold argmax
  rw [if_neg (by simpa [List.isEmpty_iff] using hne)]
  have hm : l.foldr max 0 = 0 :=
    Nat.le_antisymm (foldr_max_le fun x hx => le_of_eq (h x hx)) (Nat.zero_le _)
  rw [hm]
  cases l with
  | nil => exact absurd rfl hne
  | cons a t =>
      have ha : a = 0 := h a (List.mem_cons_self a t)
      subst ha
      simp

theorem map_indexOf_one {α : Type} [DecidableEq α] {L : List α}
    {f : α → Nat} {p : α} (hp : p ∈ L) (h1 : f p = 1)
    (h0 : ∀ q ∈ L, q ≠ p → f q = 0) :
    (L.map f).indexOf 1 = L.indexOf p := by
  induction L with
  | nil => cases hp
  | cons a t ih =>
      by_cases ha : a = p
      · subst ha
        simp [h1]
      · have hfa : f a = 0 := h0 a (List.mem_cons_self a t) ha
        have hp' : p ∈ t := by
          rcases List.mem_cons.mp hp with h | h
          · exact absurd h.symm ha
          · exact h
        rw [List.map_cons, List.indexOf_cons_ne _ (by simp [hfa]),
          List.indexOf_cons_ne _ (by simpa using ha),
          ih hp' fun q hq hqp => h0 q (List.mem_cons_of_mem a hq) hqp]

theorem argmax_map_unique {α : Type} [DecidableEq α] (L : List α)
    (f : α → Nat) (p : α) (hp : p ∈ L) (h1 : f p = 1)
    (h0 : ∀ q ∈ L, q ≠ p → f q = 0) :
    argmax (L.map f) = .ok (L.indexOf p) := by
  have hne : ¬ (L.map f).isEmpty = true := by
    cases L with
    | nil => cases hp
    | cons a t => simp
  have hle : ∀ x ∈ L.map f, x ≤ 1 := by
    intro x hx
    obtain ⟨q, hq, rfl⟩ := List.mem_map.mp hx
    by_cases hqp : q = p
    · subst hqp; omega
    · rw [h0 q hq hqp]; omega
  have h1m : (1 : Nat) ∈ L.map f := List.mem_map.mpr ⟨p, hp, h1⟩
  unfold argmax
  rw [if_neg hne, foldr_max_eq_one h1m hle, map_indexOf_one hp h1 h0]

theorem replicate_set_last (n : Nat) :
    (List.replicate (n + 1) (0 : Nat)).set n 1 = List.replicate n 0 ++ [1] := by
  induction n with
  | zero => rfl
  | succ m ih =>
      rw [List.replicate_succ, List.set_cons_succ, ih, List.replicate_succ]
      rfl

theorem nonEdges_fst_lt_snd {g : Graph} {u v : Nat}
    (h : (u, v) ∈ nonEdges g) : u < v := by
  unfold nonEdges at h
  simp only [List.mem_flatMap, List.mem_map, List.mem_filter,
    List.mem_range, decide_eq_true_eq] at h
  obtain ⟨a, _, b, hb, hab⟩ := h
  obtain ⟨rfl, rfl⟩ := Prod.mk.injEq .. ▸ hab
  exact hb.2.1

theorem pyGetI_oob {α : Type} (l : List α) (t : Int)
    (h : (l.length : Int) ≤ t ∨ t + l.length < 0) :
    pyGetI l t = .error .indexError := by
  unfold pyGetI
  rcases h with h | h
  · have ht : ¬ (t < 0) := by omega
    simp only [ht, if_false]
    rw [dif_neg]
    omega
  · have ht : t < 0 := by omega
    simp only [ht, if_true]
    rw [dif_neg]
    omega

theorem aidx_never_none (atoms : List String) (g : Data)
    (idx : Int × Int × Int) :
    aidx_to_GraphAction atoms g idx ≠ .ok none := by
  obtain ⟨t, r, c⟩ := idx
  unfold aidx_to_GraphAction
  rcases hty : pyGetI actionTypeOrder t with e | ty
  · simp [hty, Bind.bind, Except.bind]
  · simp only [hty, Bind.bind, Except.bind]
    cases ty
    · simp [Pure.pure, Except.pure]
    · rcases hv : pyGetI (atomAttrValues atoms "v") c with e | v <;>
        simp [hv, Pure.pure, Except.pure]
    · rcases hv : pyGetI (atomAttrLogitMap atoms) c with e | av <;>
        simp [hv, Pure.pure, Except.pure]
    · rcases hv : pyGetI g.non_edge_index r with e | ab <;>
        simp [hv, Pure.pure, Except.pure]
    · rcases hv : pyGetI g.edge_index (r * 2) with e | ab
      · simp [hv, Bind.bind, Except.bind]
      · rcases hw : pyGetI bondAttrLogitMap c with e | av <;>
          simp [hv, hw, Bind.bind, Except.bind, Pure.pure, Except.pure]

/-!  ## Claim theorems -/

/-- **C8**: `graph_to_Data` on the empty graph produces a node feature
matrix with exactly one row, all `atomAttrSize` actual attribute
positions zero, and the final (empty-indicator) position set to 1. -/
theorem graph_to_Data_empty (atoms : List String) :
    (graph_to_Data atoms gEmpty).x =
      [List.replicate (atomAttrSize atoms) 0 ++ [1]] := by
  show [setOne (List.replicate (numNodeDim atoms) 0) (numNodeDim atoms - 1)] = _
  unfold setOne numNodeDim
  rw [Nat.add_sub_cancel, replicate_set_last]

/-- **C3** (counterexample): in the scenario exactly as the claim states
it — two carbons already joined by a single bond — the non-edge
candidate list is empty, so encoding the AddEdge action between atoms 0
and 1 raises (torch `argmax` over an empty tensor) instead of returning
an index triple. -/
theorem addEdge_bonded_pair_raises :
    GraphAction_to_aidx defaultAtoms (graph_to_Data defaultAtoms gCCbond)
      addEdge01 = .error .runtimeError ∧
    (graph_to_Data defaultAtoms gCCbond).non_edge_index = [] := by
  decide

/-- **C3** (amended): with the two carbons not yet bonded, encoding then
decoding the AddEdge action between atoms 0 and 1 returns an Action
equal to the original, and the encoder matches the pair in either
orientation: the reversed action `AddEdge(1, 0)` encodes to the same
index triple. -/
theorem addEdge_free_pair_roundtrip :
    GraphAction_to_aidx defaultAtoms (graph_to_Data defaultAtoms gCCfree)
      addEdge01 = .ok (3, 0, 0) ∧
    aidx_to_GraphAction defaultAtoms (graph_to_Data defaultAtoms gCCfree)
      (3, 0, 0) = .ok (some addEdge01) ∧
    GraphAction_to_aidx defaultAtoms (graph_to_Data defaultAtoms gCCfree)
      addEdge10 = .ok (3, 0, 0) := by
  decide

/-- **C4** (counterexample): at the out-of-range action-type ordinal 5
the decoder raises `IndexError` (from `self.action_type_order[act_type]`)
— it does not silently return `None`. -/
theorem aidx_oob_raises :
    aidx_to_GraphAction defaultAtoms (graph_to_Data defaultAtoms gEmpty)
      (5, 0, 0) = .error .indexError ∧
    aidx_to_GraphAction defaultAtoms (graph_to_Data defaultAtoms gEmpty)
      (5, 0, 0) ≠ .ok none := by
  decide

/-- **C4** (amended): an action-type ordinal outside the range of
`action_type_order` (at least 5, or negative past `-5`) makes
`aidx_to_GraphAction` raise `IndexError` at the list lookup; the
implicit-`None` fall-through branch is unreachable because the order
lists all five variants, so no input produces a silent `None`. -/
theorem aidx_oob_indexError (atoms : List String) (g : Data) (t r c : Int)
    (h : 5 ≤ t ∨ t + 5 < 0) :
    aidx_to_GraphAction atoms g (t, r, c) = .error .indexError ∧
    ∀ idx : Int × Int × Int, aidx_to_GraphAction atoms g idx ≠ .ok none := by
  refine ⟨?_, fun idx => aidx_never_none atoms g idx⟩
  have hget : pyGetI actionTypeOrder t = .error .indexError := by
    apply pyGetI_oob
    have : (actionTypeOrder.length : Int) = 5 := by rfl
    omega
  unfold aidx_to_GraphAction
  simp [hget, Bind.bind, Except.bind]

/-- Witness for `aidx_oob_indexError` at ordinal 5. -/
theorem aidx_oob_indexError_witness :
    aidx_to_GraphAction defaultAtoms (graph_to_Data defaultAtoms gC1)
      (5, 0, 0) = .error .indexError ∧
    ∀ idx : Int × Int × Int,
      aidx_to_GraphAction defaultAtoms (graph_to_Data defaultAtoms gC1)
        idx ≠ .ok none :=
  aidx_oob_indexError defaultAtoms (graph_to_Data defaultAtoms gC1)
    5 0 0 (Or.inl (by omega))

/-- **C10** (counterexample): on the tensor of a single-node graph the
non-edge candidate list is empty; encoding AddEdge(0, 1) — a pair
certainly absent from the candidates in either orientation — raises
(torch `argmax` over an empty tensor), it does not return (3, 0, 0). -/
theorem addEdge_unmatched_empty_raises :
    GraphAction_to_aidx defaultAtoms (graph_to_Data defaultAtoms gC1)
      addEdge01 = .error .runtimeError ∧
    GraphAction_to_aidx defaultAtoms (graph_to_Data defaultAtoms gC1)
      addEdge01 ≠ .ok (3, 0, 0) ∧
    (graph_to_Data defaultAtoms gC1).non_edge_index = [] := by
  decide

/-- **C10** (amended): when the tensor's non-edge candidate list is
nonempty, encoding an AddEdge action whose pair is absent from it in
either orientation does not raise: the argmax of the all-zero match mask
is 0, so the result is the index triple (3, 0, 0), aliasing the first
non-edge candidate. -/
theorem addEdge_unmatched_aliases (atoms : List String) (g : Data)
    (s t : Int) (hne : g.non_edge_index ≠ [])
    (hs : (s, t) ∉ g.non_edge_index) (ht : (t, s) ∉ g.non_edge_index) :
    GraphAction_to_aidx atoms g
      { action := .AddEdge, source := some s, target := some t } =
      .ok (3, 0, 0) := by
  have hmask : argmax (g.non_edge_index.map fun p =>
      (if p = (s, t) then 1 else 0) + (if p = (t, s) then 1 else 0)) =
      .ok 0 := by
    apply argmax_all_zero
    · simpa using hne
    · intro x hx
      obtain ⟨q, hq, rfl⟩ := List.mem_map.mp hx
      rw [if_neg (fun h : q = (s, t) => hs (h ▸ hq)),
        if_neg (fun h : q = (t, s) => ht (h ▸ hq))]
  unfold GraphAction_to_aidx
  simp [hmask, getSome, Bind.bind, Except.bind, Pure.pure, Except.pure,
    pyIndex_ok (show GraphActionType.AddEdge ∈ actionTypeOrder by decide)]
  rfl

/-- Witness for `addEdge_unmatched_aliases`: on the 3-carbon path graph
the bonded pair (0, 1) is absent from the non-edge candidates
`[(0, 2), (1, 2)]`, and encoding AddEdge(0, 1) yields (3, 0, 0). -/
theorem addEdge_unmatched_aliases_witness :
    GraphAction_to_aidx defaultAtoms (graph_to_Data defaultAtoms gPath)
      addEdge01 = .ok (3, 0, 0) :=
  addEdge_unmatched_aliases defaultAtoms (graph_to_Data defaultAtoms gPath)
    0 1 (by decide) (by decide) (by decide)

/-- **C5**: in the constructed vocabulary tables, index 0 of every
attribute value list is the declared default; the logit maps contain no
default value (and no `v` entries at all); per attribute the logit map
has one fewer column than the value list (the default is excluded, `v`
entirely); the SetNodeAttr/SetEdgeAttr column encoding is the value's
list index minus 1 plus the attribute's logit slice; and the input
feature row built by `graph_to_Data` keeps a position for the default
(an attribute-free node sets position `slice start + 0`, the default's
slot, for every attribute). -/
theorem attr_tables_default_invariant :
    (∀ k ∈ atomAttrs,
      (atomAttrValues defaultAtoms k).headI = atomAttrDefault defaultAtoms k) ∧
    (∀ k ∈ bondAttrs, (bondAttrValues k).headI = bondAttrDefault k) ∧
    (∀ p ∈ atomAttrLogitMap defaultAtoms,
      p.2 ≠ atomAttrDefault defaultAtoms p.1) ∧
    (∀ p ∈ bondAttrLogitMap, p.2 ≠ bondAttrDefault p.1) ∧
    (∀ k ∈ atomAttrs,
      ((atomAttrLogitMap defaultAtoms).filter fun p => p.1 = k).length =
        if k = "v" then 0 else (atomAttrValues defaultAtoms k).length - 1) ∧
    (∀ k ∈ atomAttrs, k ≠ "v" → ∀ v ∈ atomAttrValues defaultAtoms k,
      v ≠ atomAttrDefault defaultAtoms k →
      GraphAction_to_aidx defaultAtoms (graph_to_Data defaultAtoms gPath)
        { action := .SetNodeAttr, source := some 0, attr := some k,
          value := some v } =
        .ok (2, 0, ((atomAttrValues defaultAtoms k).indexOf v : Int) - 1 +
          (atomAttrLogitSlice defaultAtoms k : Int))) ∧
    (∀ v ∈ bondAttrValues "type", v ≠ bondAttrDefault "type" →
      GraphAction_to_aidx defaultAtoms (graph_to_Data defaultAtoms gPath)
        { action := .SetEdgeAttr, source := some 0, target := some 1,
          attr := some "type", value := some v } =
        .ok (4, 0, ((bondAttrValues "type").indexOf v : Int) - 1 +
          (bondAttrLogitSlice "type" : Int))) ∧
    (∀ ksl ∈ atomAttrs.zip (atomAttrSlice defaultAtoms),
      (nodeRow defaultAtoms []).get? ksl.2 = some 1) := by
  decide

/-- **C9**: `is_sane` returns `true` exactly when the molecule builds
and the canonical-string round trip validates, and converts every
reconstruction failure into the boolean `false` instead of propagating
it (the sanitizer and the canonical-string functions of the chemistry
library are parameters). -/
theorem is_sane_catches (san : Mol → Except PyError Mol) (ts : Mol → String)
    (fs : String → Option Mol) (g : Graph) :
    (is_sane san ts fs g = true ↔
      ∃ mol, graph_to_mol san g = .ok mol ∧ (fs (ts mol)).isSome = true) ∧
    (∀ e, graph_to_mol san g = .error e → is_sane san ts fs g = false) := by
  unfold is_sane
  rcases h : graph_to_mol san g with e | mol
  · simp
  · constructor
    · by_cases hf : (fs (ts mol)).isSome = true <;> simp [hf]
    · simp

/-- **C7**: `mol_to_graph` stores the element symbol `v` on every node
and otherwise stores only attribute values that differ from the
attribute's declared default, on nodes and on edges alike. -/
theorem mol_to_graph_omits_defaults (atoms : List String) (m : Mol) :
    (∀ d ∈ (mol_to_graph atoms m).nodes,
      (∃ s, d.lookup "v" = some (AttrVal.str s)) ∧
      ∀ kv ∈ d, kv.1 ≠ "v" → kv.2 ≠ atomAttrDefault atoms kv.1) ∧
    (∀ e ∈ (mol_to_graph atoms m).edges, ∀ kv ∈ e.2.2,
      kv.2 ≠ bondAttrDefault kv.1) := by
  constructor
  · intro d hd
    simp only [mol_to_graph, List.mem_map] at hd
    obtain ⟨a, _, rfl⟩ := hd
    refine ⟨⟨a.symbol, rfl⟩, ?_⟩
    intro kv hkv hne
    rcases List.mem_cons.mp hkv with h | h
    · exact absurd (by rw [h]) hne
    · simpa using (List.mem_filter.mp h).2
  · intro e he kv hkv
    simp only [mol_to_graph, List.mem_flatMap, List.mem_filter,
      List.mem_map] at he
    obtain ⟨u, _, ⟨b, _, rfl⟩, _⟩ := he
    simpa using (List.mem_filter.mp hkv).2

/-- Witness for `mol_to_graph_omits_defaults` on a concrete molecule:
the stored charge of the carbocation differs from the default. -/
theorem mol_to_graph_omits_defaults_witness :
    (AttrVal.int 1 : AttrVal) ≠ atomAttrDefault defaultAtoms "charge" :=
  ((mol_to_graph_omits_defaults defaultAtoms mExample).1
      [("v", AttrVal.str "C"), ("charge", AttrVal.int 1)] (by decide)).2
    ("charge", AttrVal.int 1) (by decide) (by decide)


/-- The node-attribute logit map is a fixed 8-entry table independent
of the atom vocabulary (`v` is excluded from it). -/
theorem atomAttrLogitMap_concrete (atoms : List String) :
    atomAttrLogitMap atoms =
      [("charge", .int 1), ("charge", .int (-1)),
       ("chi", .chi .CHI_TETRAHEDRAL_CW), ("chi", .chi .CHI_TETRAHEDRAL_CCW),
       ("expl_H", .int 1), ("expl_H", .int 2), ("expl_H", .int 3),
       ("no_impl", .bool true)] := rfl

/-- Decoding the encoded column of a legal SetNodeAttr action recovers
the attribute and value: entry `index - 1 + logit slice` of the logit
map is `(k, v)`. -/
theorem logitMap_decode (atoms : List String) {k : String} {v : AttrVal}
    (hk : k ∈ atomAttrs) (hkv : k ≠ "v")
    (hv : v ∈ atomAttrValues atoms k) (hd : v ≠ atomAttrDefault atoms k) :
    pyGetI (atomAttrLogitMap atoms)
      (((atomAttrValues atoms k).indexOf v : Int) - 1 +
        (atomAttrLogitSlice atoms k : Int)) = .ok (k, v) := by
  rw [atomAttrLogitMap_concrete]
  simp only [atomAttrs, List.mem_cons, List.not_mem_nil, or_false] at hk
  rcases hk with rfl | rfl | rfl | rfl | rfl
  · simp only [show atomAttrValues atoms "charge" = [.int 0, .int 1, .int (-1)] from rfl] at hv ⊢
    rw [show atomAttrLogitSlice atoms "charge" = 0 from rfl]
    rcases List.mem_cons.mp hv with rfl | hv'
    · exact absurd rfl hd
    · rcases List.mem_cons.mp hv' with rfl | hv''
      · decide
      · rcases List.mem_cons.mp hv'' with rfl | h
        · decide
        · cases h
  · simp only [show atomAttrValues atoms "chi" = [.chi .CHI_UNSPECIFIED, .chi .CHI_TETRAHEDRAL_CW, .chi .CHI_TETRAHEDRAL_CCW] from rfl] at hv ⊢
    rw [show atomAttrLogitSlice atoms "chi" = 2 from rfl]
    rcases List.mem_cons.mp hv with rfl | hv'
    · exact absurd rfl hd
    · rcases List.mem_cons.mp hv' with rfl | hv''
      · decide
      · rcases List.mem_cons.mp hv'' with rfl | h
        · decide
        · cases h
  · simp only [show atomAttrValues atoms "expl_H" = [.int 0, .int 1, .int 2, .int 3] from rfl] at hv ⊢
    rw [show atomAttrLogitSlice atoms "expl_H" = 4 from rfl]
    rcases List.mem_cons.mp hv with rfl | hv'
    · exact absurd rfl hd
    · rcases List.mem_cons.mp hv' with rfl | hv''
      · decide
      · rcases List.mem_cons.mp hv'' with rfl | hv'''
        · decide
        · rcases List.mem_cons.mp hv''' with rfl | h
          · decide
          · cases h
  · simp only [show atomAttrValues atoms "no_impl" = [.bool false, .bool true] from rfl] at hv ⊢
    rw [show atomAttrLogitSlice atoms "no_impl" = 7 from rfl]
    rcases List.mem_cons.mp hv with rfl | hv'
    · exact absurd rfl hd
    · rcases List.mem_cons.mp hv' with rfl | h
      · decide
      · cases h
  · exact absurd rfl hkv


/-- Decoding the encoded column of a legal SetEdgeAttr action recovers
the bond attribute and value. -/
theorem bondLogit_decode : ∀ w ∈ bondAttrValues "type",
    w ≠ bondAttrDefault "type" →
    pyGetI bondAttrLogitMap (((bondAttrValues "type").indexOf w : Int) - 1 +
      (bondAttrLogitSlice "type" : Int)) = .ok ("type", w) := by
  decide

/-- In a list flattened from two-element blocks, a target occurring as
the forward element of one block and nowhere else sits at an even index
`2k`, which `indexOf` finds. -/
theorem flatMap_pair_find {α β : Type} [DecidableEq α]
    (fwd rev : β → α) (l : List β) (b : β) (hmem : b ∈ l)
    (hrevb : rev b ≠ fwd b)
    (hother : ∀ c ∈ l, c ≠ b → fwd c ≠ fwd b ∧ rev c ≠ fwd b) :
    ∃ k : Nat,
      (l.flatMap fun e => [fwd e, rev e]).indexOf (fwd b) = 2 * k ∧
      (l.flatMap fun e => [fwd e, rev e]).get? (2 * k) = some (fwd b) := by
  induction l with
  | nil => cases hmem
  | cons c t ih =>
      by_cases hc : c = b
      · subst hc
        refine ⟨0, ?_, ?_⟩
        · simp only [List.flatMap_cons, List.cons_append, List.nil_append]
          exact List.indexOf_cons_self _ _
        · simp only [List.flatMap_cons, List.cons_append, List.nil_append]
          rfl
      · obtain ⟨hf, hr⟩ := hother c (List.mem_cons_self c t) hc
        have hmem' : b ∈ t := by
          rcases List.mem_cons.mp hmem with h | h
          · exact absurd h.symm hc
          · exact h
        obtain ⟨k, hk1, hk2⟩ := ih hmem'
          (fun d hd hdb => hother d (List.mem_cons_of_mem c hd) hdb)
        refine ⟨k + 1, ?_, ?_⟩
        · simp only [List.flatMap_cons, List.cons_append, List.nil_append]
          rw [List.indexOf_cons_ne _ hf, List.indexOf_cons_ne _ hr, hk1]
          omega
        · simp only [List.flatMap_cons, List.cons_append, List.nil_append]
          rw [show 2 * (k + 1) = 2 * k + 1 + 1 by omega]
          rw [List.get?_cons_succ, List.get?_cons_succ]
          exact hk2


/-- Locating a stored non-edge pair: the encoder's either-orientation
match mask has its argmax at a row whose non-edge entry is the pair. -/
theorem nonEdge_find (atoms : List String) (g : Graph) {u v : Nat}
    (h : (u, v) ∈ nonEdges g) :
    ∃ r : Nat,
      argmax ((graph_to_Data atoms g).non_edge_index.map fun p =>
        (if p = ((u : Int), (v : Int)) then 1 else 0) +
        (if p = ((v : Int), (u : Int)) then 1 else 0)) = .ok r ∧
      (graph_to_Data atoms g).non_edge_index.get? r =
        some ((u : Int), (v : Int)) := by
  have huv : u < v := nonEdges_fst_lt_snd h
  have hmem : ((u : Int), (v : Int)) ∈ (graph_to_Data atoms g).non_edge_index :=
    List.mem_map_of_mem _ h
  have h1 : ((if ((u : Int), (v : Int)) = ((u : Int), (v : Int)) then 1 else 0) +
      (if ((u : Int), (v : Int)) = ((v : Int), (u : Int)) then 1 else 0) : Nat) = 1 := by
    rw [if_pos rfl, if_neg]
    intro hh
    have : (u : Int) = (v : Int) := (Prod.mk.injEq .. ▸ hh).1
    omega
  have h0 : ∀ q ∈ (graph_to_Data atoms g).non_edge_index,
      q ≠ ((u : Int), (v : Int)) →
      ((if q = ((u : Int), (v : Int)) then 1 else 0) +
       (if q = ((v : Int), (u : Int)) then 1 else 0) : Nat) = 0 := by
    intro q hq hqp
    rw [if_neg hqp, if_neg]
    intro hh
    obtain ⟨⟨a, b⟩, hab, heq⟩ := List.mem_map.mp hq
    have hab' : a < b := nonEdges_fst_lt_snd hab
    rw [← heq] at hh
    have ha : (a : Int) = (v : Int) := (Prod.mk.injEq .. ▸ hh).1
    have hb : (b : Int) = (u : Int) := (Prod.mk.injEq .. ▸ hh).2
    omega
  have hargmax := argmax_map_unique _
    (fun p => (if p = ((u : Int), (v : Int)) then 1 else 0) +
      (if p = ((v : Int), (u : Int)) then 1 else 0)) _ hmem h1 h0
  refine ⟨_, hargmax, ?_⟩
  have hlt := List.indexOf_lt_length.mpr hmem
  rw [List.get?_eq_get hlt]
  rw [List.indexOf_get]

/-- Locating a stored edge in the duplicated directed edge list: the
match mask on the stored orientation has its argmax at an even position
`2k` holding the pair. -/
theorem dupEdge_find (atoms : List String) (g : Graph) (hwf : g.WF atoms)
    {u v : Nat} {ad : List (String × AttrVal)} (he : (u, v, ad) ∈ g.edges) :
    ∃ k : Nat,
      argmax ((graph_to_Data atoms g).edge_index.map fun q =>
        if q = ((u : Int), (v : Int)) then 1 else 0) = .ok (2 * k) ∧
      (graph_to_Data atoms g).edge_index.get? (2 * k) =
        some ((u : Int), (v : Int)) := by
  have hne : u ≠ v := hwf.edges_ne _ he
  have hsym : Symmetric (fun e f : Nat × Nat × List (String × AttrVal) =>
      ¬ sameUnordered e f) := by
    intro e f hef hfe
    apply hef
    rcases hfe with ⟨h1, h2⟩ | ⟨h1, h2⟩
    · exact Or.inl ⟨h1.symm, h2.symm⟩
    · exact Or.inr ⟨h2.symm, h1.symm⟩
  have hrevb : ((v : Int), (u : Int)) ≠ ((u : Int), (v : Int)) := by
    intro hh
    have : (v : Int) = (u : Int) := (Prod.mk.injEq .. ▸ hh).1
    omega
  have hother : ∀ c ∈ g.edges, c ≠ (u, v, ad) →
      ((c.1 : Int), (c.2.1 : Int)) ≠ ((u : Int), (v : Int)) ∧
      ((c.2.1 : Int), (c.1 : Int)) ≠ ((u : Int), (v : Int)) := by
    intro c hc hcb
    have hnsame : ¬ sameUnordered c (u, v, ad) :=
      hwf.edges_nodup.forall hsym hc he hcb
    constructor
    · intro hh
      apply hnsame
      left
      have h1 : (c.1 : Int) = (u : Int) := (Prod.mk.injEq .. ▸ hh).1
      have h2 : (c.2.1 : Int) = (v : Int) := (Prod.mk.injEq .. ▸ hh).2
      refine ⟨?_, ?_⟩
      · show c.1 = u
        omega
      · show c.2.1 = v
        omega
    · intro hh
      apply hnsame
      right
      have h1 : (c.2.1 : Int) = (u : Int) := (Prod.mk.injEq .. ▸ hh).1
      have h2 : (c.1 : Int) = (v : Int) := (Prod.mk.injEq .. ▸ hh).2
      refine ⟨?_, ?_⟩
      · show c.1 = v
        omega
      · show c.2.1 = u
        omega
  obtain ⟨k, hk1, hk2⟩ := flatMap_pair_find
    (fun e => ((e.1 : Int), (e.2.1 : Int)))
    (fun e => ((e.2.1 : Int), (e.1 : Int))) g.edges (u, v, ad) he hrevb hother
  have hp : ((u : Int), (v : Int)) ∈ (graph_to_Data atoms g).edge_index := by
    exact List.get?_mem hk2
  have hargmax := argmax_map_unique _
    (fun q => if q = ((u : Int), (v : Int)) then 1 else 0) _ hp (if_pos rfl)
    (fun q _ hqp => if_neg hqp)
  refine ⟨k, ?_, ?_⟩
  · rw [hargmax]
    exact congrArg Except.ok hk1
  · exact hk2


/-- **C1** (amended): for every well-formed graph constructible from the
vocabulary and every legal action applicable to it whose edge endpoints
are given in the stored orientation (`AddEdge` pairs as listed in the
non-edge candidates, `SetEdgeAttr` pairs as stored in the edge list),
decoding the encoding of the action over the graph's tensor form
returns the original action.  For a reversed-orientation edge action the
decoder returns the action with its endpoints swapped (see the
counterexample). -/
theorem aidx_roundtrip (atoms : List String) (g : Graph) (hwf : g.WF atoms)
    (a : GraphAction) (hl : Legal atoms g a) :
    ∃ idx, GraphAction_to_aidx atoms (graph_to_Data atoms g) a = .ok idx ∧
      aidx_to_GraphAction atoms (graph_to_Data atoms g) idx = .ok (some a) := by
  cases hl with
  | stop => exact ⟨(0, 0, 0), rfl, rfl⟩
  | addNode s v hv =>
      have hmem : AttrVal.str v ∈ atomAttrValues atoms "v" :=
        List.mem_map_of_mem _ hv
      have hlt : (atomAttrValues atoms "v").indexOf (AttrVal.str v) <
          (atomAttrValues atoms "v").length := List.indexOf_lt_length.mpr hmem
      refine ⟨(1, s, ((atomAttrValues atoms "v").indexOf (AttrVal.str v) : Int)),
        ?_, ?_⟩
      · unfold GraphAction_to_aidx
        simp [getSome, pyIndex_ok hmem, Bind.bind, Except.bind, Pure.pure,
          Except.pure,
          pyIndex_ok (show GraphActionType.AddNode ∈ actionTypeOrder by decide)]
        rfl
      · unfold aidx_to_GraphAction
        simp [Bind.bind, Except.bind, Pure.pure, Except.pure,
          show pyGetI actionTypeOrder (1 : Int) = .ok GraphActionType.AddNode
            from rfl,
          pyGetI_ofNat _ _ hlt, List.indexOf_get]
  | setNodeAttr s k v hk hkv hv hd =>
      refine ⟨(2, s, ((atomAttrValues atoms k).indexOf v : Int) - 1 +
        (atomAttrLogitSlice atoms k : Int)), ?_, ?_⟩
      · unfold GraphAction_to_aidx
        simp [getSome, pyIndex_ok hv, Bind.bind, Except.bind, Pure.pure,
          Except.pure,
          pyIndex_ok
            (show GraphActionType.SetNodeAttr ∈ actionTypeOrder by decide)]
        rfl
      · unfold aidx_to_GraphAction
        simp [Bind.bind, Except.bind, Pure.pure, Except.pure,
          show pyGetI actionTypeOrder (2 : Int) =
            .ok GraphActionType.SetNodeAttr from rfl,
          logitMap_decode atoms hk hkv hv hd]
  | addEdge u v h =>
      obtain ⟨r, hr, hget⟩ := nonEdge_find atoms g h
      obtain ⟨hrlt, hrget⟩ := List.get?_eq_some.mp hget
      refine ⟨(3, (r : Int), 0), ?_, ?_⟩
      · unfold GraphAction_to_aidx
        simp [getSome, Bind.bind, Except.bind, Pure.pure, Except.pure, hr,
          pyIndex_ok
            (show GraphActionType.AddEdge ∈ actionTypeOrder by decide)]
        rfl
      · unfold aidx_to_GraphAction
        simp [Bind.bind, Except.bind, Pure.pure, Except.pure,
          show pyGetI actionTypeOrder (3 : Int) =
            .ok GraphActionType.AddEdge from rfl,
          pyGetI_ofNat _ _ hrlt, hrget]
        have hg : (graph_to_Data atoms g).non_edge_index[r] =
            ((u : Int), (v : Int)) := hrget
        exact ⟨congrArg Prod.fst hg, congrArg Prod.snd hg⟩
  | setEdgeAttr u v ad w he hv hd =>
      obtain ⟨k, hk, hget⟩ := dupEdge_find atoms g hwf he
      obtain ⟨hklt, hkget⟩ := List.get?_eq_some.mp hget
      refine ⟨(4, (k : Int), ((bondAttrValues "type").indexOf w : Int) - 1 +
        (bondAttrLogitSlice "type" : Int)), ?_, ?_⟩
      · unfold GraphAction_to_aidx
        simp only [getSome, Bind.bind, Except.bind, Pure.pure, Except.pure,
          hk, pyIndex_ok hv,
          pyIndex_ok
            (show GraphActionType.SetEdgeAttr ∈ actionTypeOrder by decide)]
        have hdiv : ((2 * k : Nat) : Int) / 2 = (k : Int) := by omega
        simp [hdiv]
        rfl
      · unfold aidx_to_GraphAction
        have hcast : (2 : Int) * (k : Int) = ((2 * k : Nat) : Int) := by
          push_cast
          ring
        have hcast2 : (k : Int) * 2 = ((2 * k : Nat) : Int) := by
          push_cast
          ring
        simp only [Bind.bind, Except.bind, Pure.pure, Except.pure,
          show pyGetI actionTypeOrder (4 : Int) =
            .ok GraphActionType.SetEdgeAttr from rfl,
          hcast2, pyGetI_ofNat _ _ hklt, bondLogit_decode w hv hd]
        have hg : (graph_to_Data atoms g).edge_index.get ⟨2 * k, hklt⟩ =
            ((u : Int), (v : Int)) := hkget
        rw [hg]

/-- **C1** (counterexample): the round-trip law fails as universally
stated: over two bond-free carbons the reversed-orientation action
AddEdge(1, 0) — which the encoder explicitly accepts by matching either
orientation — encodes to (3, 0, 0) but decodes to AddEdge(0, 1), the
stored orientation, which differs from the original action. -/
theorem aidx_roundtrip_counterexample :
    GraphAction_to_aidx defaultAtoms (graph_to_Data defaultAtoms gCCfree)
      addEdge10 = .ok (3, 0, 0) ∧
    aidx_to_GraphAction defaultAtoms (graph_to_Data defaultAtoms gCCfree)
      (3, 0, 0) = .ok (some addEdge01) ∧
    addEdge01 ≠ addEdge10 := by
  decide

/-- Witness for `aidx_roundtrip`: the stored-orientation AddEdge action
on two bond-free carbons round-trips. -/
theorem aidx_roundtrip_witness :
    ∃ idx,
      GraphAction_to_aidx defaultAtoms (graph_to_Data defaultAtoms gCCfree)
        addEdge01 = .ok idx ∧
      aidx_to_GraphAction defaultAtoms (graph_to_Data defaultAtoms gCCfree)
        idx = .ok (some addEdge01) :=
  aidx_roundtrip defaultAtoms gCCfree
    ⟨by decide, by decide, by decide, by decide, by decide⟩
    addEdge01 (Legal.addEdge 0 1 (by decide))


/-- **C6**: for SetEdgeAttr the row refers to the duplicated
bidirectional edge list divided by two: the encoder's match mask over
`edge_index` peaks at the even position `2k` where the stored
orientation of the edge sits, and the returned row is `k` (the position
floor-divided by two); the decoder reads `edge_index` at column `2*row`
and recovers the same undirected edge. -/
theorem setEdgeAttr_row_semantics (atoms : List String) (g : Graph)
    (hwf : g.WF atoms) (u v : Nat) (ad : List (String × AttrVal))
    (he : (u, v, ad) ∈ g.edges) (w : AttrVal)
    (hv : w ∈ bondAttrValues "type") (hd : w ≠ bondAttrDefault "type") :
    ∃ k : Nat,
      argmax ((graph_to_Data atoms g).edge_index.map fun q =>
        if q = ((u : Int), (v : Int)) then 1 else 0) = .ok (2 * k) ∧
      GraphAction_to_aidx atoms (graph_to_Data atoms g)
        { action := .SetEdgeAttr, source := some (u : Int),
          target := some (v : Int), attr := some "type", value := some w } =
        .ok (4, (k : Int), ((bondAttrValues "type").indexOf w : Int) - 1 +
          (bondAttrLogitSlice "type" : Int)) ∧
      pyGetI (graph_to_Data atoms g).edge_index ((k : Int) * 2) =
        .ok ((u : Int), (v : Int)) ∧
      aidx_to_GraphAction atoms (graph_to_Data atoms g)
        (4, (k : Int), ((bondAttrValues "type").indexOf w : Int) - 1 +
          (bondAttrLogitSlice "type" : Int)) =
        .ok (some { action := .SetEdgeAttr, source := some (u : Int),
                    target := some (v : Int), attr := some "type",
                    value := some w }) := by
  obtain ⟨k, hk, hget⟩ := dupEdge_find atoms g hwf he
  obtain ⟨hklt, hkget⟩ := List.get?_eq_some.mp hget
  have hcast2 : (k : Int) * 2 = ((2 * k : Nat) : Int) := by
    push_cast
    ring
  have hpy : pyGetI (graph_to_Data atoms g).edge_index ((k : Int) * 2) =
      .ok ((u : Int), (v : Int)) := by
    rw [hcast2, pyGetI_ofNat _ _ hklt, hkget]
  refine ⟨k, hk, ?_, hpy, ?_⟩
  · unfold GraphAction_to_aidx
    simp only [getSome, Bind.bind, Except.bind, Pure.pure, Except.pure,
      hk, pyIndex_ok hv,
      pyIndex_ok
        (show GraphActionType.SetEdgeAttr ∈ actionTypeOrder by decide)]
    have hdiv : ((2 * k : Nat) : Int) / 2 = (k : Int) := by omega
    simp [hdiv]
    rfl
  · unfold aidx_to_GraphAction
    simp only [Bind.bind, Except.bind, Pure.pure, Except.pure,
      show pyGetI actionTypeOrder (4 : Int) =
        .ok GraphActionType.SetEdgeAttr from rfl,
      hpy, bondLogit_decode w hv hd]

/-- Witness for `setEdgeAttr_row_semantics` on the 3-carbon path graph:
setting the 0-1 bond to a double bond encodes to row 0 and round-trips. -/
theorem setEdgeAttr_row_semantics_witness :
    ∃ k : Nat,
      argmax ((graph_to_Data defaultAtoms gPath).edge_index.map fun q =>
        if q = ((0 : Int), (1 : Int)) then 1 else 0) = .ok (2 * k) ∧
      GraphAction_to_aidx defaultAtoms (graph_to_Data defaultAtoms gPath)
        { action := .SetEdgeAttr, source := some (0 : Int),
          target := some (1 : Int), attr := some "type",
          value := some (.bond .DOUBLE) } =
        .ok (4, (k : Int),
          ((bondAttrValues "type").indexOf (.bond .DOUBLE) : Int) - 1 +
          (bondAttrLogitSlice "type" : Int)) ∧
      pyGetI (graph_to_Data defaultAtoms gPath).edge_index ((k : Int) * 2) =
        .ok ((0 : Int), (1 : Int)) ∧
      aidx_to_GraphAction defaultAtoms (graph_to_Data defaultAtoms gPath)
        (4, (k : Int),
          ((bondAttrValues "type").indexOf (.bond .DOUBLE) : Int) - 1 +
          (bondAttrLogitSlice "type" : Int)) =
        .ok (some { action := .SetEdgeAttr, source := some (0 : Int),
                    target := some (1 : Int), attr := some "type",
                    value := some (.bond .DOUBLE) }) :=
  setEdgeAttr_row_semantics defaultAtoms gPath
    ⟨by decide, by decide, by decide, by decide, by decide⟩
    0 1 [] (by decide) (.bond .DOUBLE) (by decide) (by decide)


theorem mapM_ok {α γ : Type} (l : List α) (f : α → Except PyError γ)
    (h : α → γ) (hf : ∀ a ∈ l, f a = .ok (h a)) :
    l.mapM f = .ok (l.map h) := by
  induction l with
  | nil => rfl
  | cons a t ih =>
      rw [List.mapM_cons, hf a (List.mem_cons_self a t),
        ih fun x hx => hf x (List.mem_cons_of_mem a hx)]
      rfl

/-- Rebuilding an atom from the attribute list `mol_to_graph` stores for
it yields the original atom. -/
theorem buildAtom_roundtrip (atoms : List String) (a : Atom) :
    buildAtom (atomNode atoms a) = .ok a := by
  unfold atomNode
  obtain ⟨sym, tag, ch, eh, ni⟩ := a
  by_cases h1 : tag = ChiralType.CHI_UNSPECIFIED <;>
    by_cases h2 : ch = (0 : Int) <;>
      by_cases h3 : eh = (0 : Int) <;>
        by_cases h4 : ni = false
  · subst h1
    subst h2
    subst h3
    subst h4
    have b1 : decide (AttrVal.chi ChiralType.CHI_UNSPECIFIED ≠ atomAttrDefault atoms "chi") = false :=
      decide_eq_false (fun hh => hh rfl)
    have b2 : decide (AttrVal.int 0 ≠ atomAttrDefault atoms "charge") = false :=
      decide_eq_false (fun hh => hh rfl)
    have b3 : decide (AttrVal.int 0 ≠ atomAttrDefault atoms "expl_H") = false :=
      decide_eq_false (fun hh => hh rfl)
    have b4 : decide (AttrVal.bool false ≠ atomAttrDefault atoms "no_impl") = false :=
      decide_eq_false (fun hh => hh rfl)
    simp only [List.filter_cons, List.filter_nil, b1, b2, b3, b4,
      eq_self_iff_true, if_true, Bool.false_eq_true, if_false]
    rfl
  · subst h1
    subst h2
    subst h3
    have b1 : decide (AttrVal.chi ChiralType.CHI_UNSPECIFIED ≠ atomAttrDefault atoms "chi") = false :=
      decide_eq_false (fun hh => hh rfl)
    have b2 : decide (AttrVal.int 0 ≠ atomAttrDefault atoms "charge") = false :=
      decide_eq_false (fun hh => hh rfl)
    have b3 : decide (AttrVal.int 0 ≠ atomAttrDefault atoms "expl_H") = false :=
      decide_eq_false (fun hh => hh rfl)
    have b4 : decide (AttrVal.bool ni ≠ atomAttrDefault atoms "no_impl") = true :=
      decide_eq_true (fun hh => h4 (AttrVal.bool.inj hh))
    simp only [List.filter_cons, List.filter_nil, b1, b2, b3, b4,
      eq_self_iff_true, if_true, Bool.false_eq_true, if_false]
    rfl
  · subst h1
    subst h2
    subst h4
    have b1 : decide (AttrVal.chi ChiralType.CHI_UNSPECIFIED ≠ atomAttrDefault atoms "chi") = false :=
      decide_eq_false (fun hh => hh rfl)
    have b2 : decide (AttrVal.int 0 ≠ atomAttrDefault atoms "charge") = false :=
      decide_eq_false (fun hh => hh rfl)
    have b3 : decide (AttrVal.int eh ≠ atomAttrDefault atoms "expl_H") = true :=
      decide_eq_true (fun hh => h3 (AttrVal.int.inj hh))
    have b4 : decide (AttrVal.bool false ≠ atomAttrDefault atoms "no_impl") = false :=
      decide_eq_false (fun hh => hh rfl)
    simp only [List.filter_cons, List.filter_nil, b1, b2, b3, b4,
      eq_self_iff_true, if_true, Bool.false_eq_true, if_false]
    rfl
  · subst h1
    subst h2
    have b1 : decide (AttrVal.chi ChiralType.CHI_UNSPECIFIED ≠ atomAttrDefault atoms "chi") = false :=
      decide_eq_false (fun hh => hh rfl)
    have b2 : decide (AttrVal.int 0 ≠ atomAttrDefault atoms "charge") = false :=
      decide_eq_false (fun hh => hh rfl)
    have b3 : decide (AttrVal.int eh ≠ atomAttrDefault atoms "expl_H") = true :=
      decide_eq_true (fun hh => h3 (AttrVal.int.inj hh))
    have b4 : decide (AttrVal.bool ni ≠ atomAttrDefault atoms "no_impl") = true :=
      decide_eq_true (fun hh => h4 (AttrVal.bool.inj hh))
    simp only [List.filter_cons, List.filter_nil, b1, b2, b3, b4,
      eq_self_iff_true, if_true, Bool.false_eq_true, if_false]
    rfl
  · subst h1
    subst h3
    subst h4
    have b1 : decide (AttrVal.chi ChiralType.CHI_UNSPECIFIED ≠ atomAttrDefault atoms "chi") = false :=
      decide_eq_false (fun hh => hh rfl)
    have b2 : decide (AttrVal.int ch ≠ atomAttrDefault atoms "charge") = true :=
      decide_eq_true (fun hh => h2 (AttrVal.int.inj hh))
    have b3 : decide (AttrVal.int 0 ≠ atomAttrDefault atoms "expl_H") = false :=
      decide_eq_false (fun hh => hh rfl)
    have b4 : decide (AttrVal.bool false ≠ atomAttrDefault atoms "no_impl") = false :=
      decide_eq_false (fun hh => hh rfl)
    simp only [List.filter_cons, List.filter_nil, b1, b2, b3, b4,
      eq_self_iff_true, if_true, Bool.false_eq_true, if_false]
    rfl
  · subst h1
    subst h3
    have b1 : decide (AttrVal.chi ChiralType.CHI_UNSPECIFIED ≠ atomAttrDefault atoms "chi") = false :=
      decide_eq_false (fun hh => hh rfl)
    have b2 : decide (AttrVal.int ch ≠ atomAttrDefault atoms "charge") = true :=
      decide_eq_true (fun hh => h2 (AttrVal.int.inj hh))
    have b3 : decide (AttrVal.int 0 ≠ atomAttrDefault atoms "expl_H") = false :=
      decide_eq_false (fun hh => hh rfl)
    have b4 : decide (AttrVal.bool ni ≠ atomAttrDefault atoms "no_impl") = true :=
      decide_eq_true (fun hh => h4 (AttrVal.bool.inj hh))
    simp only [List.filter_cons, List.filter_nil, b1, b2, b3, b4,
      eq_self_iff_true, if_true, Bool.false_eq_true, if_false]
    rfl
  · subst h1
    subst h4
    have b1 : decide (AttrVal.chi ChiralType.CHI_UNSPECIFIED ≠ atomAttrDefault atoms "chi") = false :=
      decide_eq_false (fun hh => hh rfl)
    have b2 : decide (AttrVal.int ch ≠ atomAttrDefault atoms "charge") = true :=
      decide_eq_true (fun hh => h2 (AttrVal.int.inj hh))
    have b3 : decide (AttrVal.int eh ≠ atomAttrDefault atoms "expl_H") = true :=
      decide_eq_true (fun hh => h3 (AttrVal.int.inj hh))
    have b4 : decide (AttrVal.bool false ≠ atomAttrDefault atoms "no_impl") = false :=
      decide_eq_false (fun hh => hh rfl)
    simp only [List.filter_cons, List.filter_nil, b1, b2, b3, b4,
      eq_self_iff_true, if_true, Bool.false_eq_true, if_false]
    rfl
  · subst h1
    have b1 : decide (AttrVal.chi ChiralType.CHI_UNSPECIFIED ≠ atomAttrDefault atoms "chi") = false :=
      decide_eq_false (fun hh => hh rfl)
    have b2 : decide (AttrVal.int ch ≠ atomAttrDefault atoms "charge") = true :=
      decide_eq_true (fun hh => h2 (AttrVal.int.inj hh))
    have b3 : decide (AttrVal.int eh ≠ atomAttrDefault atoms "expl_H") = true :=
      decide_eq_true (fun hh => h3 (AttrVal.int.inj hh))
    have b4 : decide (AttrVal.bool ni ≠ atomAttrDefault atoms "no_impl") = true :=
      decide_eq_true (fun hh => h4 (AttrVal.bool.inj hh))
    simp only [List.filter_cons, List.filter_nil, b1, b2, b3, b4,
      eq_self_iff_true, if_true, Bool.false_eq_true, if_false]
    rfl
  · subst h2
    subst h3
    subst h4
    have b1 : decide (AttrVal.chi tag ≠ atomAttrDefault atoms "chi") = true :=
      decide_eq_true (fun hh => h1 (AttrVal.chi.inj hh))
    have b2 : decide (AttrVal.int 0 ≠ atomAttrDefault atoms "charge") = false :=
      decide_eq_false (fun hh => hh rfl)
    have b3 : decide (AttrVal.int 0 ≠ atomAttrDefault atoms "expl_H") = false :=
      decide_eq_false (fun hh => hh rfl)
    have b4 : decide (AttrVal.bool false ≠ atomAttrDefault atoms "no_impl") = false :=
      decide_eq_false (fun hh => hh rfl)
    simp only [List.filter_cons, List.filter_nil, b1, b2, b3, b4,
      eq_self_iff_true, if_true, Bool.false_eq_true, if_false]
    rfl
  · subst h2
    subst h3
    have b1 : decide (AttrVal.chi tag ≠ atomAttrDefault atoms "chi") = true :=
      decide_eq_true (fun hh => h1 (AttrVal.chi.inj hh))
    have b2 : decide (AttrVal.int 0 ≠ atomAttrDefault atoms "charge") = false :=
      decide_eq_false (fun hh => hh rfl)
    have b3 : decide (AttrVal.int 0 ≠ atomAttrDefault atoms "expl_H") = false :=
      decide_eq_false (fun hh => hh rfl)
    have b4 : decide (AttrVal.bool ni ≠ atomAttrDefault atoms "no_impl") = true :=
      decide_eq_true (fun hh => h4 (AttrVal.bool.inj hh))
    simp only [List.filter_cons, List.filter_nil, b1, b2, b3, b4,
      eq_self_iff_true, if_true, Bool.false_eq_true, if_false]
    rfl
  · subst h2
    subst h4
    have b1 : decide (AttrVal.chi tag ≠ atomAttrDefault atoms "chi") = true :=
      decide_eq_true (fun hh => h1 (AttrVal.chi.inj hh))
    have b2 : decide (AttrVal.int 0 ≠ atomAttrDefault atoms "charge") = false :=
      decide_eq_false (fun hh => hh rfl)
    have b3 : decide (AttrVal.int eh ≠ atomAttrDefault atoms "expl_H") = true :=
      decide_eq_true (fun hh => h3 (AttrVal.int.inj hh))
    have b4 : decide (AttrVal.bool false ≠ atomAttrDefault atoms "no_impl") = false :=
      decide_eq_false (fun hh => hh rfl)
    simp only [List.filter_cons, List.filter_nil, b1, b2, b3, b4,
      eq_self_iff_true, if_true, Bool.false_eq_true, if_false]
    rfl
  · subst h2
    have b1 : decide (AttrVal.chi tag ≠ atomAttrDefault atoms "chi") = true :=
      decide_eq_true (fun hh => h1 (AttrVal.chi.inj hh))
    have b2 : decide (AttrVal.int 0 ≠ atomAttrDefault atoms "charge") = false :=
      decide_eq_false (fun hh => hh rfl)
    have b3 : decide (AttrVal.int eh ≠ atomAttrDefault atoms "expl_H") = true :=
      decide_eq_true (fun hh => h3 (AttrVal.int.inj hh))
    have b4 : decide (AttrVal.bool ni ≠ atomAttrDefault atoms "no_impl") = true :=
      decide_eq_true (fun hh => h4 (AttrVal.bool.inj hh))
    simp only [List.filter_cons, List.filter_nil, b1, b2, b3, b4,
      eq_self_iff_true, if_true, Bool.false_eq_true, if_false]
    rfl
  · subst h3
    subst h4
    have b1 : decide (AttrVal.chi tag ≠ atomAttrDefault atoms "chi") = true :=
      decide_eq_true (fun hh => h1 (AttrVal.chi.inj hh))
    have b2 : decide (AttrVal.int ch ≠ atomAttrDefault atoms "charge") = true :=
      decide_eq_true (fun hh => h2 (AttrVal.int.inj hh))
    have b3 : decide (AttrVal.int 0 ≠ atomAttrDefault atoms "expl_H") = false :=
      decide_eq_false (fun hh => hh rfl)
    have b4 : decide (AttrVal.bool false ≠ atomAttrDefault atoms "no_impl") = false :=
      decide_eq_false (fun hh => hh rfl)
    simp only [List.filter_cons, List.filter_nil, b1, b2, b3, b4,
      eq_self_iff_true, if_true, Bool.false_eq_true, if_false]
    rfl
  · subst h3
    have b1 : decide (AttrVal.chi tag ≠ atomAttrDefault atoms "chi") = true :=
      decide_eq_true (fun hh => h1 (AttrVal.chi.inj hh))
    have b2 : decide (AttrVal.int ch ≠ atomAttrDefault atoms "charge") = true :=
      decide_eq_true (fun hh => h2 (AttrVal.int.inj hh))
    have b3 : decide (AttrVal.int 0 ≠ atomAttrDefault atoms "expl_H") = false :=
      decide_eq_false (fun hh => hh rfl)
    have b4 : decide (AttrVal.bool ni ≠ atomAttrDefault atoms "no_impl") = true :=
      decide_eq_true (fun hh => h4 (AttrVal.bool.inj hh))
    simp only [List.filter_cons, List.filter_nil, b1, b2, b3, b4,
      eq_self_iff_true, if_true, Bool.false_eq_true, if_false]
    rfl
  · subst h4
    have b1 : decide (AttrVal.chi tag ≠ atomAttrDefault atoms "chi") = true :=
      decide_eq_true (fun hh => h1 (AttrVal.chi.inj hh))
    have b2 : decide (AttrVal.int ch ≠ atomAttrDefault atoms "charge") = true :=
      decide_eq_true (fun hh => h2 (AttrVal.int.inj hh))
    have b3 : decide (AttrVal.int eh ≠ atomAttrDefault atoms "expl_H") = true :=
      decide_eq_true (fun hh => h3 (AttrVal.int.inj hh))
    have b4 : decide (AttrVal.bool false ≠ atomAttrDefault atoms "no_impl") = false :=
      decide_eq_false (fun hh => hh rfl)
    simp only [List.filter_cons, List.filter_nil, b1, b2, b3, b4,
      eq_self_iff_true, if_true, Bool.false_eq_true, if_false]
    rfl
  · have b1 : decide (AttrVal.chi tag ≠ atomAttrDefault atoms "chi") = true :=
      decide_eq_true (fun hh => h1 (AttrVal.chi.inj hh))
    have b2 : decide (AttrVal.int ch ≠ atomAttrDefault atoms "charge") = true :=
      decide_eq_true (fun hh => h2 (AttrVal.int.inj hh))
    have b3 : decide (AttrVal.int eh ≠ atomAttrDefault atoms "expl_H") = true :=
      decide_eq_true (fun hh => h3 (AttrVal.int.inj hh))
    have b4 : decide (AttrVal.bool ni ≠ atomAttrDefault atoms "no_impl") = true :=
      decide_eq_true (fun hh => h4 (AttrVal.bool.inj hh))
    simp only [List.filter_cons, List.filter_nil, b1, b2, b3, b4,
      eq_self_iff_true, if_true, Bool.false_eq_true, if_false]
    rfl


theorem mapM_map_ok {α β γ : Type} (l : List α) (g : α → β)
    (f : β → Except PyError γ) (h : α → γ)
    (hf : ∀ a ∈ l, f (g a) = .ok (h a)) :
    (l.map g).mapM f = .ok (l.map h) := by
  induction l with
  | nil => rfl
  | cons a t ih =>
      rw [List.map_cons, List.mapM_cons, hf a (List.mem_cons_self a t),
        ih fun x hx => hf x (List.mem_cons_of_mem a hx)]
      rfl

theorem normBond_idem (b : Bond) : normBond (normBond b) = normBond b := by
  obtain ⟨b1, b2, bt⟩ := b
  by_cases hle : b1 ≤ b2
  · simp [normBond, hle]
  · simp only [normBond, hle, if_false]
    simp [show b2 ≤ b1 by omega]

/-- Rebuilding a bond from the edge `mol_to_graph` stores for it yields
the orientation-normalized original bond. -/
theorem buildBond_roundtrip (n : Nat) (b : Bond)
    (h1 : b.beginAtomIdx < n) (h2 : b.endAtomIdx < n) :
    buildBond n (bondEdge b) = .ok (normBond b) := by
  unfold bondEdge
  obtain ⟨b1, b2, bt⟩ := b
  simp only at h1 h2
  by_cases hbt : bt = BondType.SINGLE
  · subst hbt
    have bf : decide (AttrVal.bond BondType.SINGLE ≠ bondAttrDefault "type") =
        false := decide_eq_false fun hh => hh rfl
    simp only [List.filter_cons, List.filter_nil, bf, Bool.false_eq_true,
      if_false]
    unfold buildBond normBond
    rw [if_pos (show min b1 b2 < n ∧ max b1 b2 < n from
      ⟨by omega, by omega⟩)]
    by_cases hle : b1 ≤ b2 <;>
      simp [hle, Nat.min_def, Nat.max_def, asBond, Bind.bind, Except.bind,
        Pure.pure, Except.pure]
  · have bf : decide (AttrVal.bond bt ≠ bondAttrDefault "type") = true :=
      decide_eq_true fun hh => hbt (AttrVal.bond.inj hh)
    simp only [List.filter_cons, List.filter_nil, bf, eq_self_iff_true,
      if_true]
    unfold buildBond normBond
    rw [if_pos (show min b1 b2 < n ∧ max b1 b2 < n from
      ⟨by omega, by omega⟩)]
    by_cases hle : b1 ≤ b2 <;>
      simp [hle, Nat.min_def, Nat.max_def, asBond, Bind.bind, Except.bind,
        Pure.pure, Except.pure, List.lookup]

theorem sum_map_range_ite (n k c : Nat) (hk : k < n) :
    ((List.range n).map fun u => if k = u then c else 0).sum = c := by
  induction n with
  | zero => omega
  | succ m ih =>
      rw [List.range_succ, List.map_append, List.sum_append]
      by_cases hkm : k = m
      · subst hkm
        have hz : ((List.range k).map fun u => if k = u then c else 0).sum
            = 0 := by
          apply List.sum_eq_zero
          intro x hx
          obtain ⟨u, hu, rfl⟩ := List.mem_map.mp hx
          rw [if_neg]
          have := List.mem_range.mp hu
          omega
        simp [hz]
      · rw [ih (by omega)]
        simp [hkm]

/-- Grouping a list by a key bounded by `n` is a permutation of it. -/
theorem group_perm {β : Type} [DecidableEq β] (key : β → Nat) (n : Nat)
    (l : List β) (h : ∀ b ∈ l, key b < n) :
    ((List.range n).flatMap fun u => l.filter fun b => key b = u).Perm l := by
  rw [List.perm_iff_count]
  intro x
  rw [List.count_flatMap]
  simp only [Function.comp_def]
  by_cases hx : x ∈ l
  · have hkx : key x < n := h x hx
    have hmap : ((List.range n).map fun u =>
        (l.filter fun b => key b = u).count x) =
        (List.range n).map fun u => if key x = u then l.count x else 0 := by
      apply List.map_congr_left
      intro u _
      by_cases hu : key x = u
      · rw [if_pos hu, List.count_filter (by simpa using hu)]
      · rw [if_neg hu]
        rw [List.count_eq_zero]
        intro hmem
        exact hu (by simpa using (List.mem_filter.mp hmem).2)
    rw [hmap, sum_map_range_ite _ _ _ hkx]
  · rw [List.count_eq_zero.mpr hx]
    apply List.sum_eq_zero
    intro y hy
    obtain ⟨u, _, rfl⟩ := List.mem_map.mp hy
    rw [List.count_eq_zero]
    intro hmem
    exact hx (List.mem_of_mem_filter hmem)


/-- The bond reconstructed from a stored edge is the
orientation-normalized original bond. -/
theorem rebuild_eq_normBond (b : Bond) :
    edgeBond (bondEdge b) = normBond b := by
  unfold edgeBond bondEdge
  obtain ⟨b1, b2, bt⟩ := b
  by_cases hbt : bt = BondType.SINGLE
  · subst hbt
    have bf : decide (AttrVal.bond BondType.SINGLE ≠ bondAttrDefault "type") =
        false := decide_eq_false fun hh => hh rfl
    simp only [List.filter_cons, List.filter_nil, bf, Bool.false_eq_true,
      if_false]
    unfold normBond
    by_cases hle : b1 ≤ b2 <;>
      simp [hle, Nat.min_def, Nat.max_def, List.lookup]
  · have bf : decide (AttrVal.bond bt ≠ bondAttrDefault "type") = true :=
      decide_eq_true fun hh => hbt (AttrVal.bond.inj hh)
    simp only [List.filter_cons, List.filter_nil, bf, eq_self_iff_true,
      if_true]
    unfold normBond
    by_cases hle : b1 ≤ b2 <;>
      simp [hle, Nat.min_def, Nat.max_def, List.lookup]

/-- **C2**: for every supported molecule (atom indices are positions,
bond endpoints in range), rebuilding the molecule from the graph that
`mol_to_graph` produces succeeds and yields a chemically equivalent
molecule — identical atoms, the same bonds up to orientation and order —
so any canonical string function of the chemical graph agrees on the
two; the default attributes omitted by `mol_to_graph` are re-applied by
the atom and bond constructors during reconstruction. -/
theorem mol_graph_roundtrip (atoms : List String) (m : Mol)
    (hb : ∀ b ∈ m.bonds, b.beginAtomIdx < m.atoms.length ∧
      b.endAtomIdx < m.atoms.length) :
    ∃ r, graph_to_mol_raw (mol_to_graph atoms m) = .ok r ∧ MolEquiv r m ∧
      ∀ canon : Mol → String,
        (∀ m₁ m₂, MolEquiv m₁ m₂ → canon m₁ = canon m₂) →
        canon r = canon m := by
  have hatoms : (mol_to_graph atoms m).nodes.mapM buildAtom = .ok m.atoms := by
    have h := mapM_map_ok m.atoms (atomNode atoms) buildAtom id
      (fun a _ => buildAtom_roundtrip atoms a)
    rw [List.map_id] at h
    exact h
  have hperm : ((mol_to_graph atoms m).edges).Perm (m.bonds.map bondEdge) := by
    apply group_perm
    intro e' he'
    obtain ⟨b, hbm, rfl⟩ := List.mem_map.mp he'
    have := hb b hbm
    unfold bondEdge
    simp only
    omega
  have hrbuild : ∀ e ∈ (mol_to_graph atoms m).edges,
      buildBond m.atoms.length e = .ok (edgeBond e) := by
    intro e he
    obtain ⟨b, hbm, rfl⟩ := List.mem_map.mp (hperm.mem_iff.mp he)
    rw [buildBond_roundtrip m.atoms.length b (hb b hbm).1 (hb b hbm).2,
      rebuild_eq_normBond b]
  have hlen : (mol_to_graph atoms m).nodes.length = m.atoms.length := by
    simp [mol_to_graph]
  have hbonds : (mol_to_graph atoms m).edges.mapM
      (buildBond (mol_to_graph atoms m).nodes.length) =
      .ok ((mol_to_graph atoms m).edges.map edgeBond) := by
    rw [hlen]
    exact mapM_ok _ _ _ hrbuild
  have hok : graph_to_mol_raw (mol_to_graph atoms m) = .ok
      { atoms := m.atoms,
        bonds := (mol_to_graph atoms m).edges.map edgeBond } := by
    unfold graph_to_mol_raw
    rw [hatoms]
    simp only [Bind.bind, Except.bind]
    rw [hbonds]
    rfl
  have hequiv : MolEquiv
      { atoms := m.atoms,
        bonds := (mol_to_graph atoms m).edges.map edgeBond } m := by
    refine ⟨rfl, ?_⟩
    show (((mol_to_graph atoms m).edges.map edgeBond).map normBond).Perm
      (m.bonds.map normBond)
    rw [List.map_map]
    have hstep := hperm.map (normBond ∘ edgeBond)
    rw [List.map_map] at hstep
    have heq : m.bonds.map ((normBond ∘ edgeBond) ∘ bondEdge) =
        m.bonds.map normBond := by
      apply List.map_congr_left
      intro b _
      show normBond (edgeBond (bondEdge b)) = normBond b
      rw [rebuild_eq_normBond b, normBond_idem]
    rw [heq] at hstep
    exact hstep
  exact ⟨_, hok, hequiv, fun canon hc => hc _ m hequiv⟩

/-- Witness for `mol_graph_roundtrip` on a concrete three-atom molecule
with a reversed-orientation double bond. -/
theorem mol_graph_roundtrip_witness :
    ∃ r, graph_to_mol_raw (mol_to_graph defaultAtoms mExample) = .ok r ∧
      MolEquiv r mExample ∧
      ∀ canon : Mol → String,
        (∀ m₁ m₂, MolEquiv m₁ m₂ → canon m₁ = canon m₂) →
        canon r = canon mExample :=
  mol_graph_roundtrip defaultAtoms mExample (by decide)


/-- Witness for `is_sane_catches`: a failing sanitizer makes `is_sane`
report `false` rather than propagate. -/
theorem is_sane_catches_witness :
    is_sane (fun _ => Except.error PyError.valueError) (fun _ => "")
      (fun _ => none) gC1 = false :=
  (is_sane_catches (fun _ => Except.error PyError.valueError) (fun _ => "")
      (fun _ => none) gC1).2 PyError.valueError (by decide)

end MolBuild
